import Mathlib

/-!
# empirical-traffic-gen: the server (`src/server.c`)

A shallow embedding of the two functions of `server.c` that carry behaviour:

* `handle_connection` (lines 93-180): the per-connection request loop.  It is
  embedded as a small-step machine over the socket calls the handler makes.
  The handler is deterministic given the values its socket calls return, so a
  run is driven by a script: the list of results of the successive calls.
* `read_args` (lines 185-215): the command-line scanner, embedded as the
  index-driven `while (i < argc)` loop over `argv`.

`read_exact`, `write_exact`, `write_forever` and the constant `READBUF_SIZE`
come from `common.h`, which is not part of the sources; the calls appear as
events with an arbitrary result and `READBUF_SIZE` is a parameter.
-/

namespace TrafficGen

/-! ## Machine integers -/

/-- Conversion of an integer value to the 32-bit `int` of the target
(two's complement wrap-around). -/
def wrapInt (x : Int) : Int := (x + 2147483648) % 4294967296 - 2147483648

/-- Conversion of an `int` to `size_t` (64-bit), as done for the third
argument of `read`. -/
def size_t_of_int (x : Int) : Int := x % 18446744073709551616

/-! ## Configuration (the globals of `server.c`) -/

/-- Line 13: `#define MAX_WRITE 104857600`. -/
def MAX_WRITE : Nat := 104857600

/-- The globals written by `read_args` (lines 16-20); `flowbuf` carries no
content that matters and is not represented. -/
structure Config where
  serverPort : Int
  reverse_dir : Int
  tcp_congestion_name : String
  pers_tput_log : String
deriving DecidableEq, Repr

/-- Constants fixed by the build: `READBUF_SIZE` (from `common.h`; the length
of the array `readbuf`, line 101, hence not negative) and the byte order in
which `memcpy` lays out a `uint`. -/
structure Target where
  READBUF_SIZE : Nat
  bigEndian : Bool
deriving DecidableEq, Repr

/-! ## Socket calls and their results -/

abbrev Byte := Fin 256

/-- The memory a `write_exact` call sends from: the metadata buffer `buf`
(with the bytes it holds) or the filler region `flowbuf`. -/
inductive Source where
  | buf (bytes : List Byte)
  | flowbuf
deriving DecidableEq, Repr

/-- The calls `handle_connection` makes on the connection socket, with their
arguments. -/
inductive Op where
  /-- Line 110: `read_exact(sockfd, buf, count, max_per_read, dummy)`. -/
  | read_exact (count max_per_read : Nat) (dummy : Bool)
  /-- Lines 123 and 139: `write_exact(sockfd, src, count, max_per_write, dummy)`. -/
  | write_exact (src : Source) (count max_per_write : Nat) (dummy : Bool)
  /-- Line 132: `write_forever(sockfd, src, count, log)`. -/
  | write_forever (src : Source) (count : Nat) (log : String)
  /-- Line 155: `read(sockfd, readbuf, readsize)`; `readsize` is the `int`
  value at the call site, before its conversion to `size_t`. -/
  | read (readsize : Int)
  /-- Line 178: `close(sockfd)`. -/
  | close
deriving DecidableEq, Repr

/-- What one call gives back: its return value and, for `read_exact`, the
bytes it stored at the start of the destination buffer. -/
structure Resp where
  ret : Int
  data : List Byte
deriving DecidableEq, Repr

/-! ## The state of `handle_connection` -/

/-- Program points of the request loop: the call the handler is about to make. -/
inductive Pc where
  /-- Line 110: about to call `read_exact` for the metadata. -/
  | await_request
  /-- Line 123: about to echo the metadata. -/
  | echo_metadata
  /-- Line 139: about to send the flow with `write_exact`. -/
  | send_flow
  /-- Line 132: about to call `write_forever`. -/
  | backlog
  /-- Line 155: inside the `do` body, about to call `read`. -/
  | recv_flow
deriving DecidableEq, Repr

/-- The locals of `handle_connection` (lines 94-101) and the program point. -/
structure State where
  pc : Pc
  buf : List Byte
  f_index : Nat
  f_size : Nat
  total : Int
  n : Int
deriving DecidableEq, Repr

/-- Line 98: `meta_data_size = 2 * sizeof(uint)`. -/
def meta_data_size : Nat := 2 * 4

/-- The value of a `uint` whose representation is the given bytes,
least significant byte first. -/
def uint_le : List Byte → Nat
  | [] => 0
  | b :: bs => b.val + 256 * uint_le bs

/-- Lines 115-116: `memcpy(&x, p, sizeof(uint))` in the byte order of the target. -/
def load_uint (bigEndian : Bool) (bytes : List Byte) : Nat :=
  if bigEndian then uint_le (bytes.take 4).reverse else uint_le (bytes.take 4)

/-- Line 115: the flow index held by the metadata buffer. -/
def decode_index (t : Target) (buf : List Byte) : Nat := load_uint t.bigEndian buf

/-- Line 116: the flow size held by the metadata buffer (bytes 4..7). -/
def decode_size (t : Target) (buf : List Byte) : Nat := load_uint t.bigEndian (buf.drop 4)

/-- The buffer after a call stored `data` at its start (at most
`meta_data_size` bytes, the count asked of `read_exact`). -/
def store (buf data : List Byte) : List Byte :=
  data.take meta_data_size ++ buf.drop (data.take meta_data_size).length

/-- Lines 151-153: the size passed to `read`. -/
def readsize (t : Target) (total : Int) : Int :=
  if total > t.READBUF_SIZE then t.READBUF_SIZE else total

/-- The call made at each program point. -/
def request (t : Target) (cfg : Config) (s : State) : Op :=
  match s.pc with
  | .await_request => .read_exact meta_data_size 16 false
  | .echo_metadata => .write_exact (.buf (s.buf.take meta_data_size)) meta_data_size MAX_WRITE false
  | .send_flow => .write_exact .flowbuf s.f_size MAX_WRITE true
  | .backlog => .write_forever .flowbuf MAX_WRITE cfg.pers_tput_log
  | .recv_flow => .read (readsize t s.total)

/-- What follows a call. -/
inductive Next where
  /-- Control reaches the next call. -/
  | next_call (s : State)
  /-- A `break` out of `while(1)`: lines 177-180 follow. -/
  | break_loop
  /-- Line 136: `exit(EXIT_FAILURE)`. -/
  | exit_failure
deriving DecidableEq, Repr

/-- One call of the request loop returns: the code between that call and the
next one.  Return values are compared by value (the return types of
`read_exact` and `write_exact` are not in the sources; for a result that an
`int` or `uint` can hold and a right-hand side below `2^31` this is what
`!=` computes). -/
def step (t : Target) (cfg : Config) (s : State) (r : Resp) : Next :=
  match s.pc with
  | .await_request =>
      -- lines 110-116
      let buf := store s.buf r.data
      if r.ret ≠ meta_data_size then .break_loop
      else .next_call { s with
        pc := .echo_metadata, buf := buf,
        f_index := decode_index t buf,
        f_size := decode_size t buf }
  | .echo_metadata =>
      -- lines 123-129 and 147-149
      if r.ret ≠ meta_data_size then .break_loop
      else if cfg.reverse_dir = 0 then
        if s.f_size = 0 then .next_call { s with pc := .backlog }
        else .next_call { s with pc := .send_flow }
      else .next_call { s with pc := .recv_flow, total := wrapInt s.f_size }
  | .backlog =>
      -- lines 132-137; the `n` of this block shadows the outer one
      if r.ret < 0 then .exit_failure
      else .next_call { s with pc := .await_request }
  | .send_flow =>
      -- lines 139-141
      if r.ret ≠ s.f_size then .break_loop
      else .next_call { s with pc := .await_request }
  | .recv_flow =>
      -- lines 155-167
      let n := wrapInt r.ret
      let total := wrapInt (s.total - n)
      if total > 0 ∧ n > 0 then .next_call { s with pc := .recv_flow, total := total, n := n }
      else if total > 0 then .break_loop
      else .next_call { s with pc := .await_request, total := total, n := n }

/-- How a run ends. -/
inductive Outcome where
  /-- The handler closed the socket and returned (line 180). -/
  | returned
  /-- The process ended in `exit(EXIT_FAILURE)` (line 136). -/
  | exited
  /-- The script is used up: the handler is inside its last call. -/
  | blocked
deriving DecidableEq, Repr

/-- The run of the request loop from state `s` against the results `script`:
the calls made, in order, and how the run ends. -/
def run (t : Target) (cfg : Config) : State → List Resp → List Op × Outcome
  | s, [] => ([request t cfg s], .blocked)
  | s, r :: rest =>
      match step t cfg s r with
      | .next_call s' => (request t cfg s :: (run t cfg s' rest).1, (run t cfg s' rest).2)
      | .break_loop => ([request t cfg s, .close], .returned)
      | .exit_failure => ([request t cfg s], .exited)

/-- A state at the head of the request loop (line 108), with arbitrary locals. -/
def at_loop_head (buf : List Byte) (f_index f_size : Nat) (total n : Int) : State :=
  { pc := .await_request, buf := buf, f_index := f_index, f_size := f_size, total := total, n := n }

/-- The state on entry to the request loop; the locals are not initialised by
the source and none is read before it is written. -/
def entry : State := at_loop_head (List.replicate 16 0) 0 0 0 0

/-- Lines 93-180: `handle_connection` against a script of call results.  The
lines before the loop (103-106) format the peer address and make no socket
call. -/
def handle_connection (t : Target) (cfg : Config) (script : List Resp) : List Op × Outcome :=
  run t cfg entry script

/-- The state of the request loop once the calls answered by `script` have
returned; `none` when the loop has been left by then. -/
def state_after (t : Target) (cfg : Config) : State → List Resp → Option State
  | s, [] => some s
  | s, r :: rest =>
      match step t cfg s r with
      | .next_call s' => state_after t cfg s' rest
      | .break_loop => none
      | .exit_failure => none

/-- The sizes passed to `read` in a list of calls. -/
def read_sizes : List Op → List Int
  | [] => []
  | .read k :: ops => k :: read_sizes ops
  | _ :: ops => read_sizes ops

/-! ## `read_args` -/

/-- Lines 19-20: the size of `tcp_congestion_name` and of `pers_tput_log`. -/
def NAME_SIZE : Nat := 80

/-- How `read_args` ends. -/
inductive ArgsResult where
  /-- The loop ended and `read_args` returned with the globals as given. -/
  | returned (cfg : Config)
  /-- Lines 199 and 212: `exit(EXIT_FAILURE)`. -/
  | exit_failure
  /-- Here `atoi` or `strcpy` was handed `argv[argc]`, the null pointer that
  ends `argv`: undefined behaviour. -/
  | null_argument
  /-- Here `strcpy` wrote past the `NAME_SIZE` bytes of its destination:
  undefined behaviour. -/
  | buffer_overflow
  /-- The iteration bound of the embedding was reached (never the case,
  see `read_args_loop_fuel`). -/
  | out_of_fuel
deriving DecidableEq, Repr

/-- Lines 187-190: the default values. -/
def defaults : Config :=
  { serverPort := 5000, reverse_dir := 0, tcp_congestion_name := "reno", pers_tput_log := "server.log" }

/-- Lines 189, 190, 204, 207: `strcpy` into a `char[NAME_SIZE]` stays inside
the array when the string and its terminator fit. -/
def strcpy_fits (v : String) : Bool := v.utf8ByteSize + 1 ≤ NAME_SIZE

/-- Lines 193-214: the loop `while (i < argc)`, `argc` being the length of
`argv`.  The first component lists the positions of `argv` read, in order.
`atoi` is the library function.  The first argument bounds the number of
iterations. -/
def read_args_loop (atoi : String → Int) (argv : List String) :
    Nat → Nat → Config → List Nat × ArgsResult
  | 0, i, cfg => if i < argv.length then ([], .out_of_fuel) else ([], .returned cfg)
  | fuel + 1, i, cfg =>
      if i < argv.length then
        let a := argv.getD i ""
        if a = "-p" then
          match argv.get? (i + 1) with
          | none => ([i, i + 1], .null_argument)
          | some v =>
              let r := read_args_loop atoi argv fuel (i + 2) { cfg with serverPort := atoi v }
              (i :: (i + 1) :: r.1, r.2)
        else if a = "-h" then ([i], .exit_failure)
        else if a = "-r" then
          let r := read_args_loop atoi argv fuel (i + 1) { cfg with reverse_dir := 1 }
          (i :: r.1, r.2)
        else if a = "-t" then
          match argv.get? (i + 1) with
          | none => ([i, i + 1], .null_argument)
          | some v =>
              if strcpy_fits v then
                let r := read_args_loop atoi argv fuel (i + 2) { cfg with tcp_congestion_name := v }
                (i :: (i + 1) :: r.1, r.2)
              else ([i, i + 1], .buffer_overflow)
        else if a = "-l" then
          match argv.get? (i + 1) with
          | none => ([i, i + 1], .null_argument)
          | some v =>
              if strcpy_fits v then
                let r := read_args_loop atoi argv fuel (i + 2) { cfg with pers_tput_log := v }
                (i :: (i + 1) :: r.1, r.2)
              else ([i, i + 1], .buffer_overflow)
        else ([i], .exit_failure)
      else ([], .returned cfg)

/-- Lines 185-215: `read_args(argc, argv)` with `argc = argv.length`. -/
def read_args (atoi : String → Int) (argv : List String) : List Nat × ArgsResult :=
  read_args_loop atoi argv argv.length 1 defaults

/-- The reference scanner: consume the options left to right; `none` stands
for leaving with a non-zero status. -/
def ref_scan (atoi : String → Int) : Config → List String → Option Config
  | cfg, [] => some cfg
  | cfg, a :: rest =>
      if a = "-p" then
        match rest with
        | [] => none
        | v :: rest' => ref_scan atoi { cfg with serverPort := atoi v } rest'
      else if a = "-r" then ref_scan atoi { cfg with reverse_dir := 1 } rest
      else if a = "-t" then
        match rest with
        | [] => none
        | v :: rest' => ref_scan atoi { cfg with tcp_congestion_name := v } rest'
      else if a = "-l" then
        match rest with
        | [] => none
        | v :: rest' => ref_scan atoi { cfg with pers_tput_log := v } rest'
      else none

/-- The result of `read_args` that a result of the reference scanner stands for. -/
def args_result_of : Option Config → ArgsResult
  | some cfg => .returned cfg
  | none => .exit_failure

/-- Detects, in a list of calls, a data phase of zero bytes (a `read` of 0
bytes or a `write_exact` of 0 bytes of `flowbuf`) directly followed by the
metadata read of a next request. -/
def zero_byte_flow_then_next_request : List Op → Bool
  | [] => false
  | .read 0 :: .read_exact _ _ _ :: _ => true
  | .write_exact .flowbuf 0 _ _ :: .read_exact _ _ _ :: _ => true
  | _ :: ops => zero_byte_flow_then_next_request ops

/-! ## Sample inputs -/

/-- A little-endian target with a 1 MiB receive buffer. -/
def sample_target : Target := { READBUF_SIZE := 1048576, bigEndian := false }

/-- The configuration of a server started with `-r`. -/
def reverse_cfg : Config := { defaults with reverse_dir := 1 }

/-- The request `{index = 7, size = 1024}` as laid out by a little-endian client. -/
def request_7_1024 : Resp := { ret := 8, data := [7, 0, 0, 0, 0, 4, 0, 0] }

/-- The request `{index = 1, size = 4294967295}`; its size field reads the
same in both byte orders. -/
def request_1_max : Resp := { ret := 8, data := [1, 0, 0, 0, 255, 255, 255, 255] }

/-- A call that returned `k` and stored nothing. -/
def returns (k : Int) : Resp := { ret := k, data := [] }

/-! ## Basic facts about runs -/

theorem run_nil (t : Target) (cfg : Config) (s : State) :
    run t cfg s [] = ([request t cfg s], .blocked) := rfl

theorem run_cons_continue (t : Target) (cfg : Config) (s s' : State) (r : Resp) (rest : List Resp)
    (h : step t cfg s r = .next_call s') :
    run t cfg s (r :: rest) = (request t cfg s :: (run t cfg s' rest).1, (run t cfg s' rest).2) := by
  simp [run, h]

theorem run_cons_break (t : Target) (cfg : Config) (s : State) (r : Resp) (rest : List Resp)
    (h : step t cfg s r = .break_loop) :
    run t cfg s (r :: rest) = ([request t cfg s, .close], .returned) := by
  simp [run, h]

theorem run_cons_exit (t : Target) (cfg : Config) (s : State) (r : Resp) (rest : List Resp)
    (h : step t cfg s r = .exit_failure) :
    run t cfg s (r :: rest) = ([request t cfg s], .exited) := by
  simp [run, h]

/-- Every run starts with the call of its first program point. -/
theorem run_head (t : Target) (cfg : Config) (s : State) (script : List Resp) :
    (run t cfg s script).1.get? 0 = some (request t cfg s) := by
  cases script with
  | nil => rfl
  | cons r rest =>
      cases h : step t cfg s r <;> simp [run, h]

theorem run_ne_nil (t : Target) (cfg : Config) (s : State) (script : List Resp) :
    (run t cfg s script).1 ≠ [] := by
  intro h
  have := run_head t cfg s script
  rw [h] at this
  simp at this

/-- Runs compose: a run over `pre ++ post` in which the loop is still running
after `pre` is the run over `pre` without its pending last call, followed by
the run over `post` from the state reached.  A property shown for runs from
every state at the head of the loop therefore holds for every request served
on a connection. -/
theorem run_append (t : Target) (cfg : Config) (pre post : List Resp) :
    ∀ (s s' : State), state_after t cfg s pre = some s' →
      run t cfg s (pre ++ post)
        = ((run t cfg s pre).1.dropLast ++ (run t cfg s' post).1, (run t cfg s' post).2) := by
  induction pre with
  | nil =>
      intro s s' h
      simp only [state_after, Option.some.injEq] at h
      subst h
      simp [run_nil]
  | cons r pre ih =>
      intro s s' h
      cases hstep : step t cfg s r with
      | next_call s1 =>
          simp only [state_after, hstep] at h
          rw [List.cons_append, run_cons_continue _ _ _ _ _ _ hstep,
            run_cons_continue _ _ _ _ _ _ hstep, ih s1 s' h,
            List.dropLast_cons_of_ne_nil (run_ne_nil t cfg s1 pre)]
          rfl
      | break_loop => simp [state_after, hstep] at h
      | exit_failure => simp [state_after, hstep] at h

theorem store_take (buf data : List Byte) (h : data.length = meta_data_size) :
    (store buf data).take meta_data_size = data := by
  unfold store
  rw [List.take_of_length_le (le_of_eq h), List.take_left' h]

theorem request_read_exact_iff (t : Target) (cfg : Config) (s : State) (a b : Nat) (d : Bool) :
    request t cfg s = .read_exact a b d → s.pc = .await_request := by
  unfold request
  cases s.pc <;> simp

/-! ## The echo (lines 110-125) -/

/-- In a run from any state: a metadata read that returns 8 is followed at
once by the echo of the bytes it stored. -/
theorem run_echo (t : Target) (cfg : Config) (script : List Resp) :
    ∀ (s : State) (i : Nat) (r : Resp),
      (run t cfg s script).1.get? i = some (.read_exact meta_data_size 16 false) →
      script.get? i = some r → r.ret = 8 → r.data.length = 8 →
      (run t cfg s script).1.get? (i + 1)
        = some (.write_exact (.buf r.data) meta_data_size MAX_WRITE false) := by
  induction script with
  | nil => intro s i r _ h; simp at h
  | cons r0 rest ih =>
      intro s i r hop hr hret hlen
      cases hstep : step t cfg s r0 with
      | next_call s' =>
          rw [run_cons_continue t cfg s s' r0 rest hstep] at hop ⊢
          cases i with
          | zero =>
              simp only [List.get?_cons_zero, Option.some.injEq] at hop hr
              have hpc := request_read_exact_iff t cfg s _ _ _ hop
              subst hr
              simp only [List.get?_cons_succ]
              rw [run_head]
              have hs' : s' = { s with
                  pc := .echo_metadata, buf := store s.buf r0.data,
                  f_index := decode_index t (store s.buf r0.data),
                  f_size := decode_size t (store s.buf r0.data) } := by
                have := hstep
                simp [step, hpc, hret, meta_data_size] at this
                exact this.symm
              subst hs'
              simp only [request]
              rw [store_take _ _ hlen]
          | succ j =>
              simp only [List.get?_cons_succ] at hop hr ⊢
              exact ih s' j r hop hr hret hlen
      | break_loop =>
          rw [run_cons_break t cfg s r0 rest hstep] at hop
          cases i with
          | zero =>
              simp only [List.get?_cons_zero, Option.some.injEq] at hop hr
              have hpc := request_read_exact_iff t cfg s _ _ _ hop
              subst hr
              simp [step, hpc, hret, meta_data_size] at hstep
          | succ j =>
              cases j <;> simp at hop
      | exit_failure =>
          rw [run_cons_exit t cfg s r0 rest hstep] at hop
          cases i with
          | zero =>
              simp only [List.get?_cons_zero, Option.some.injEq] at hop
              have hpc := request_read_exact_iff t cfg s _ _ _ hop
              simp [step, hpc] at hstep
              split at hstep <;> simp at hstep
          | succ j => simp at hop

/-- C1: in `handle_connection`, whenever a metadata read (the call at any
position `i` of the run that is a `read_exact` for 8 bytes) returns 8 with
the 8 bytes `r.data`, the very next call is a `write_exact` of exactly 8
bytes from `buf` holding those same bytes; it comes before any call of the
data phase of that request. -/
theorem echo_follows_metadata_read (t : Target) (cfg : Config) (script : List Resp)
    (i : Nat) (r : Resp)
    (hop : (handle_connection t cfg script).1.get? i = some (.read_exact 8 16 false))
    (hr : script.get? i = some r) (hret : r.ret = 8) (hlen : r.data.length = 8) :
    (handle_connection t cfg script).1.get? (i + 1)
      = some (.write_exact (.buf r.data) 8 MAX_WRITE false) :=
  run_echo t cfg script entry i r hop hr hret hlen

/-- Two requests on one connection: the second echo carries the second
request's bytes. -/
theorem echo_follows_metadata_read_witness :
    (handle_connection sample_target defaults
        [⟨8, [7, 0, 0, 0, 1, 0, 0, 0]⟩, returns 8, returns 1,
         ⟨8, [9, 0, 0, 0, 2, 0, 0, 0]⟩, returns 8]).1.get? 3
      = some (.read_exact 8 16 false) ∧
    (handle_connection sample_target defaults
        [⟨8, [7, 0, 0, 0, 1, 0, 0, 0]⟩, returns 8, returns 1,
         ⟨8, [9, 0, 0, 0, 2, 0, 0, 0]⟩, returns 8]).1.get? 4
      = some (.write_exact (.buf [9, 0, 0, 0, 2, 0, 0, 0]) 8 MAX_WRITE false) :=
  ⟨by decide,
   echo_follows_metadata_read sample_target defaults
     [⟨8, [7, 0, 0, 0, 1, 0, 0, 0]⟩, returns 8, returns 1,
      ⟨8, [9, 0, 0, 0, 2, 0, 0, 0]⟩, returns 8] 3 ⟨8, [9, 0, 0, 0, 2, 0, 0, 0]⟩
     (by decide) (by decide) (by decide) (by decide)⟩

/-! ## One request from the head of the loop -/

/-- C5: from any state at the head of the request loop, a metadata
`read_exact` that returns anything other than 8 is followed by no echo and no
data-phase call: the only further socket call is one `close`, and the handler
returns. -/
theorem short_metadata_read_closes (t : Target) (cfg : Config) (buf : List Byte)
    (f_index f_size : Nat) (total n : Int) (m : Resp) (rest : List Resp) (h : m.ret ≠ 8) :
    run t cfg (at_loop_head buf f_index f_size total n) (m :: rest)
      = ([.read_exact 8 16 false, .close], .returned) := by
  simp [run, step, request, at_loop_head, meta_data_size, h]

/-- A client that sends 5 bytes and closes: `read_exact` returns 5. -/
theorem short_metadata_read_closes_witness :
    (⟨5, [1, 2, 3, 4, 5]⟩ : Resp).ret ≠ 8 ∧
    run sample_target defaults (at_loop_head (List.replicate 16 0) 0 0 0 0)
        [⟨5, [1, 2, 3, 4, 5]⟩, returns 8, returns 3]
      = ([.read_exact 8 16 false, .close], .returned) :=
  ⟨by decide,
   short_metadata_read_closes sample_target defaults (List.replicate 16 0) 0 0 0 0
     ⟨5, [1, 2, 3, 4, 5]⟩ [returns 8, returns 3] (by decide)⟩

/-- C2: forward mode, a request whose size field `f` is in `[1, MAX_WRITE]`,
echo complete.  The third call is the one `write_exact` for exactly `f` bytes
of `flowbuf`.  If it returns `f`, nothing is closed and the run goes on from
the head of the loop, whose first call is an 8-byte metadata read; otherwise
the loop is left, the socket closed and the handler returns. -/
theorem forward_flow (t : Target) (cfg : Config) (buf : List Byte)
    (f_index f_size : Nat) (total n : Int) (m e w : Resp) (rest : List Resp)
    (hdir : cfg.reverse_dir = 0) (hm : m.ret = 8) (he : e.ret = 8)
    (hlo : 1 ≤ decode_size t (store buf m.data))
    (_hhi : decode_size t (store buf m.data) ≤ MAX_WRITE) :
    (w.ret = decode_size t (store buf m.data) →
      run t cfg (at_loop_head buf f_index f_size total n) (m :: e :: w :: rest)
        = (.read_exact 8 16 false
            :: .write_exact (.buf ((store buf m.data).take 8)) 8 MAX_WRITE false
            :: .write_exact .flowbuf (decode_size t (store buf m.data)) MAX_WRITE true
            :: (run t cfg (at_loop_head (store buf m.data) (decode_index t (store buf m.data))
                  (decode_size t (store buf m.data)) total n) rest).1,
           (run t cfg (at_loop_head (store buf m.data) (decode_index t (store buf m.data))
                  (decode_size t (store buf m.data)) total n) rest).2)
      ∧ (run t cfg (at_loop_head (store buf m.data) (decode_index t (store buf m.data))
                  (decode_size t (store buf m.data)) total n) rest).1.get? 0
          = some (.read_exact 8 16 false)) ∧
    (w.ret ≠ decode_size t (store buf m.data) →
      run t cfg (at_loop_head buf f_index f_size total n) (m :: e :: w :: rest)
        = ([.read_exact 8 16 false,
            .write_exact (.buf ((store buf m.data).take 8)) 8 MAX_WRITE false,
            .write_exact .flowbuf (decode_size t (store buf m.data)) MAX_WRITE true,
            .close], .returned)) := by
  have hne : decode_size t (store buf m.data) ≠ 0 := by omega
  refine ⟨fun hw => ⟨?_, ?_⟩, fun hw => ?_⟩
  · simp [run, step, request, at_loop_head, meta_data_size, hm, he, hdir, hne, hw]
  · rw [run_head]; rfl
  · simp [run, step, request, at_loop_head, meta_data_size, hm, he, hdir, hne, hw]

/-- The request `{index = 7, size = 1024}` on a forward server: echo, 1024
bytes, then the next metadata read. -/
theorem forward_flow_witness :
    defaults.reverse_dir = 0 ∧ request_7_1024.ret = 8 ∧ (returns 8).ret = 8 ∧
    1 ≤ decode_size sample_target (store (List.replicate 16 0) request_7_1024.data) ∧
    decode_size sample_target (store (List.replicate 16 0) request_7_1024.data) ≤ MAX_WRITE ∧
    run sample_target defaults (at_loop_head (List.replicate 16 0) 0 0 0 0)
        [request_7_1024, returns 8, returns 1024]
      = ([.read_exact 8 16 false,
          .write_exact (.buf [7, 0, 0, 0, 0, 4, 0, 0]) 8 MAX_WRITE false,
          .write_exact .flowbuf 1024 MAX_WRITE true,
          .read_exact 8 16 false], .blocked) :=
  ⟨by decide, by decide, by decide, by decide, by decide,
   ((forward_flow sample_target defaults (List.replicate 16 0) 0 0 0 0
      request_7_1024 (returns 8) (returns 1024) []
      (by decide) (by decide) (by decide) (by decide) (by decide)).1 (by decide)).1⟩

/-- C7: forward mode, size field 0, echo complete.  The third call is
`write_forever` on `flowbuf`; when it returns a negative status the run ends
in `exit(EXIT_FAILURE)`: no `close`, no return, no further metadata read. -/
theorem backlog_failure_exits (t : Target) (cfg : Config) (buf : List Byte)
    (f_index f_size : Nat) (total n : Int) (m e w : Resp) (rest : List Resp)
    (hdir : cfg.reverse_dir = 0) (hm : m.ret = 8) (he : e.ret = 8)
    (hsize : decode_size t (store buf m.data) = 0) (hw : w.ret < 0) :
    run t cfg (at_loop_head buf f_index f_size total n) (m :: e :: w :: rest)
      = ([.read_exact 8 16 false,
          .write_exact (.buf ((store buf m.data).take 8)) 8 MAX_WRITE false,
          .write_forever .flowbuf MAX_WRITE cfg.pers_tput_log], .exited) := by
  simp [run, step, request, at_loop_head, meta_data_size, hm, he, hdir, hsize, hw]

/-- The request `{index = 1, size = 0}`, then `write_forever` fails with -1;
the results that follow in the script are never asked for. -/
theorem backlog_failure_exits_witness :
    defaults.reverse_dir = 0 ∧ (returns 8).ret = 8 ∧ (returns (-1)).ret < 0 ∧
    decode_size sample_target (store (List.replicate 16 0) [1, 0, 0, 0, 0, 0, 0, 0]) = 0 ∧
    run sample_target defaults (at_loop_head (List.replicate 16 0) 0 0 0 0)
        [⟨8, [1, 0, 0, 0, 0, 0, 0, 0]⟩, returns 8, returns (-1), request_7_1024]
      = ([.read_exact 8 16 false,
          .write_exact (.buf [1, 0, 0, 0, 0, 0, 0, 0]) 8 MAX_WRITE false,
          .write_forever .flowbuf MAX_WRITE "server.log"], .exited) :=
  ⟨by decide, by decide, by decide, by decide,
   backlog_failure_exits sample_target defaults (List.replicate 16 0) 0 0 0 0
     ⟨8, [1, 0, 0, 0, 0, 0, 0, 0]⟩ (returns 8) (returns (-1)) [request_7_1024]
     (by decide) (by decide) (by decide) (by decide) (by decide)⟩

/-! ## Size field 0 -/

/-- C4, as stated, fails in reverse mode: for the request `{index = 1,
size = 0}` the handler calls `read` for 0 bytes and, that call returning 0,
goes back to read the next request's metadata. -/
theorem zero_size_reverse_continues :
    handle_connection sample_target reverse_cfg
        [⟨8, [1, 0, 0, 0, 0, 0, 0, 0]⟩, returns 8, returns 0]
      = ([.read_exact 8 16 false,
          .write_exact (.buf [1, 0, 0, 0, 0, 0, 0, 0]) 8 MAX_WRITE false,
          .read 0,
          .read_exact 8 16 false], .blocked) ∧
    zero_byte_flow_then_next_request (handle_connection sample_target reverse_cfg
        [⟨8, [1, 0, 0, 0, 0, 0, 0, 0]⟩, returns 8, returns 0]).1 = true := by
  decide

/-- C4, amended: for a request with size field 0 and a complete echo, in
forward mode the call of the data phase is `write_forever` (not a
`write_exact` of 0 bytes); in reverse mode it is one `read` of 0 bytes, and
when that returns 0 the flow counts as complete and the run goes on from the
head of the request loop. -/
theorem zero_size_request (t : Target) (cfg : Config) (buf : List Byte)
    (f_index f_size : Nat) (total n : Int) (m e r : Resp) (rest : List Resp)
    (hm : m.ret = 8) (he : e.ret = 8)
    (hsize : decode_size t (store buf m.data) = 0) :
    (cfg.reverse_dir = 0 →
      (run t cfg (at_loop_head buf f_index f_size total n) (m :: e :: rest)).1.get? 2
        = some (.write_forever .flowbuf MAX_WRITE cfg.pers_tput_log)) ∧
    (cfg.reverse_dir ≠ 0 → r.ret = 0 →
      run t cfg (at_loop_head buf f_index f_size total n) (m :: e :: r :: rest)
        = (.read_exact 8 16 false
            :: .write_exact (.buf ((store buf m.data).take 8)) 8 MAX_WRITE false
            :: .read 0
            :: (run t cfg (at_loop_head (store buf m.data) (decode_index t (store buf m.data))
                  0 0 0) rest).1,
           (run t cfg (at_loop_head (store buf m.data) (decode_index t (store buf m.data))
                  0 0 0) rest).2)) := by
  refine ⟨fun hdir => ?_, fun hdir hr => ?_⟩
  · have hstep1 : step t cfg (at_loop_head buf f_index f_size total n) m
        = .next_call { at_loop_head buf f_index f_size total n with
            pc := .echo_metadata, buf := store buf m.data,
            f_index := decode_index t (store buf m.data),
            f_size := decode_size t (store buf m.data) } := by
      simp [step, at_loop_head, meta_data_size, hm]
    rw [run_cons_continue _ _ _ _ _ _ hstep1]
    have hstep2 : step t cfg { at_loop_head buf f_index f_size total n with
            pc := .echo_metadata, buf := store buf m.data,
            f_index := decode_index t (store buf m.data),
            f_size := decode_size t (store buf m.data) } e
        = .next_call { at_loop_head buf f_index f_size total n with
            pc := .backlog, buf := store buf m.data,
            f_index := decode_index t (store buf m.data),
            f_size := decode_size t (store buf m.data) } := by
      simp [step, at_loop_head, meta_data_size, he, hdir, hsize]
    rw [run_cons_continue _ _ _ _ _ _ hstep2]
    simp only [List.get?_cons_succ]
    rw [run_head]
    rfl
  · simp [run, step, request, at_loop_head, meta_data_size, hm, he, hdir, hsize, hr,
      wrapInt, readsize]

/-- The request `{index = 1, size = 0}` in both directions. -/
theorem zero_size_request_witness :
    (returns 8).ret = 8 ∧ reverse_cfg.reverse_dir ≠ 0 ∧ (returns 0).ret = 0 ∧
    decode_size sample_target (store (List.replicate 16 0) [1, 0, 0, 0, 0, 0, 0, 0]) = 0 ∧
    run sample_target reverse_cfg (at_loop_head (List.replicate 16 0) 0 0 0 0)
        [⟨8, [1, 0, 0, 0, 0, 0, 0, 0]⟩, returns 8, returns 0]
      = ([.read_exact 8 16 false,
          .write_exact (.buf [1, 0, 0, 0, 0, 0, 0, 0]) 8 MAX_WRITE false,
          .read 0,
          .read_exact 8 16 false], .blocked) :=
  ⟨by decide, by decide, by decide, by decide,
   (zero_size_request sample_target reverse_cfg (List.replicate 16 0) 0 0 0 0
     ⟨8, [1, 0, 0, 0, 0, 0, 0, 0]⟩ (returns 8) (returns 0) []
     (by decide) (by decide) (by decide)).2 (by decide) (by decide)⟩

/-! ## The receive loop (lines 149-167) -/

theorem wrapInt_id (x : Int) (hlo : -2147483648 ≤ x) (hhi : x ≤ 2147483647) : wrapInt x = x := by
  unfold wrapInt
  omega

/-- The receive loop with bytes outstanding: after reads that each return a
positive count and together return less than what is outstanding, a read that
returns 0 ends the loop and the request loop; the socket is closed and the
handler returns. -/
theorem recv_peer_close (t : Target) (cfg : Config) (z : Resp) (rest : List Resp)
    (hz : z.ret = 0) (reads : List Resp) :
    ∀ (s : State), s.pc = .recv_flow → s.total ≤ 2147483647 →
      (∀ r ∈ reads, 0 < r.ret) → (reads.map Resp.ret).sum < s.total →
      ∃ sizes : List Int, sizes.length = reads.length + 1 ∧
        run t cfg s (reads ++ z :: rest) = (sizes.map Op.read ++ [.close], .returned) := by
  induction reads with
  | nil =>
      intro s hpc hhi _ hsum
      simp only [List.map_nil, List.sum_nil] at hsum
      refine ⟨[readsize t s.total], rfl, ?_⟩
      have hstep : step t cfg s z = .break_loop := by
        have h0 : wrapInt 0 = 0 := by decide
        have h1 : wrapInt s.total = s.total := wrapInt_id _ (by omega) hhi
        simp [step, hpc, hz, h0, h1, hsum]
      simp [run, hstep, request, hpc]
  | cons r reads ih =>
      intro s hpc hhi hpos hsum
      have hr : 0 < r.ret := hpos r (List.mem_cons_self _ _)
      have hrest : ∀ x ∈ reads, 0 < x.ret := fun x hx => hpos x (List.mem_cons_of_mem _ hx)
      have hnn : 0 ≤ (reads.map Resp.ret).sum := by
        apply List.sum_nonneg
        intro x hx
        obtain ⟨y, hy, rfl⟩ := List.mem_map.1 hx
        exact le_of_lt (hrest y hy)
      simp only [List.map_cons, List.sum_cons] at hsum
      have h1 : wrapInt r.ret = r.ret := wrapInt_id _ (by omega) (by omega)
      have h2 : wrapInt (s.total - r.ret) = s.total - r.ret := wrapInt_id _ (by omega) (by omega)
      have hstep : step t cfg s r
          = .next_call { s with pc := .recv_flow, total := s.total - r.ret, n := r.ret } := by
        have hgt : 0 < s.total - r.ret := by omega
        simp [step, hpc, h1, h2, hgt, hr]
      obtain ⟨sizes, hlen, hrun⟩ :=
        ih { s with pc := .recv_flow, total := s.total - r.ret, n := r.ret } rfl
          (by show s.total - r.ret ≤ 2147483647; omega) hrest
          (by show (reads.map Resp.ret).sum < s.total - r.ret; omega)
      refine ⟨readsize t s.total :: sizes, by simp [hlen], ?_⟩
      rw [List.cons_append, run_cons_continue _ _ _ _ _ _ hstep, hrun]
      simp [request, hpc]

/-- C6: reverse mode, size field `f` in `[1, 2^31 - 1]`, echo complete.  After
any reads that each return a positive count and together return fewer than `f`
bytes, a `read` that returns 0 stops the receive loop: the run consists of the
metadata read, the echo, those reads and one `close`, and the handler returns
(no `exit`, no further metadata read, whatever else the peer had sent). -/
theorem reverse_peer_close (t : Target) (cfg : Config) (buf : List Byte)
    (f_index f_size : Nat) (total n : Int) (m e z : Resp) (reads rest : List Resp)
    (hdir : cfg.reverse_dir ≠ 0) (hm : m.ret = 8) (he : e.ret = 8)
    (hlo : 1 ≤ decode_size t (store buf m.data))
    (hhi : decode_size t (store buf m.data) ≤ 2147483647)
    (hpos : ∀ r ∈ reads, 0 < r.ret)
    (hsum : (reads.map Resp.ret).sum < decode_size t (store buf m.data))
    (hz : z.ret = 0) :
    ∃ sizes : List Int, sizes.length = reads.length + 1 ∧
      run t cfg (at_loop_head buf f_index f_size total n) (m :: e :: (reads ++ z :: rest))
        = (.read_exact 8 16 false
            :: .write_exact (.buf ((store buf m.data).take 8)) 8 MAX_WRITE false
            :: (sizes.map Op.read ++ [.close]), .returned) := by
  have hw : wrapInt (decode_size t (store buf m.data)) = decode_size t (store buf m.data) :=
    wrapInt_id _ (by omega) (by omega)
  obtain ⟨sizes, hlen, hrun⟩ := recv_peer_close t cfg z rest hz reads
    { at_loop_head buf f_index f_size total n with
        pc := .recv_flow, buf := store buf m.data,
        f_index := decode_index t (store buf m.data),
        f_size := decode_size t (store buf m.data),
        total := decode_size t (store buf m.data) } rfl
    (by show (decode_size t (store buf m.data) : Int) ≤ 2147483647; omega) hpos hsum
  refine ⟨sizes, hlen, ?_⟩
  have hstep1 : step t cfg (at_loop_head buf f_index f_size total n) m
      = .next_call { at_loop_head buf f_index f_size total n with
          pc := .echo_metadata, buf := store buf m.data,
          f_index := decode_index t (store buf m.data),
          f_size := decode_size t (store buf m.data) } := by
    simp [step, at_loop_head, meta_data_size, hm]
  have hstep2 : step t cfg { at_loop_head buf f_index f_size total n with
          pc := .echo_metadata, buf := store buf m.data,
          f_index := decode_index t (store buf m.data),
          f_size := decode_size t (store buf m.data) } e
      = .next_call { at_loop_head buf f_index f_size total n with
          pc := .recv_flow, buf := store buf m.data,
          f_index := decode_index t (store buf m.data),
          f_size := decode_size t (store buf m.data),
          total := decode_size t (store buf m.data) } := by
    simp [step, at_loop_head, meta_data_size, he, hdir, hw]
  rw [run_cons_continue _ _ _ _ _ _ hstep1, run_cons_continue _ _ _ _ _ _ hstep2, hrun]
  simp [request, at_loop_head, meta_data_size]

/-- A flow of 5 bytes: the peer sends 3 and closes. -/
theorem reverse_peer_close_witness :
    reverse_cfg.reverse_dir ≠ 0 ∧ (returns 8).ret = 8 ∧ (returns 0).ret = 0 ∧
    1 ≤ decode_size sample_target (store (List.replicate 16 0) [7, 0, 0, 0, 5, 0, 0, 0]) ∧
    decode_size sample_target (store (List.replicate 16 0) [7, 0, 0, 0, 5, 0, 0, 0]) ≤ 2147483647 ∧
    (∀ r ∈ [returns 3], 0 < r.ret) ∧
    (([returns 3].map Resp.ret).sum
      < decode_size sample_target (store (List.replicate 16 0) [7, 0, 0, 0, 5, 0, 0, 0])) ∧
    ∃ sizes : List Int, sizes.length = [returns 3].length + 1 ∧
      run sample_target reverse_cfg (at_loop_head (List.replicate 16 0) 0 0 0 0)
        (⟨8, [7, 0, 0, 0, 5, 0, 0, 0]⟩ :: returns 8 :: ([returns 3] ++ returns 0 :: [request_7_1024]))
        = (.read_exact 8 16 false
            :: .write_exact (.buf ((store (List.replicate 16 0) [7, 0, 0, 0, 5, 0, 0, 0]).take 8))
                 8 MAX_WRITE false
            :: (sizes.map Op.read ++ [.close]), .returned) :=
  ⟨by decide, by decide, by decide, by decide, by decide, by decide, by decide,
   reverse_peer_close sample_target reverse_cfg (List.replicate 16 0) 0 0 0 0
     ⟨8, [7, 0, 0, 0, 5, 0, 0, 0]⟩ (returns 8) (returns 0) [returns 3] [request_7_1024]
     (by decide) (by decide) (by decide) (by decide) (by decide) (by decide) (by decide)
     (by decide)⟩

/-- The receive loop with bytes outstanding: after reads that each return a
positive count and together return less than what is outstanding, a read that
returns exactly the rest ends the data phase and the run goes on from the
head of the request loop.  Every size passed to `read` is between 0 and
`READBUF_SIZE`. -/
theorem recv_exact (t : Target) (cfg : Config) (z : Resp) (rest : List Resp)
    (hz : 0 < z.ret) (reads : List Resp) :
    ∀ (s : State), s.pc = .recv_flow → s.total ≤ 2147483647 →
      (∀ r ∈ reads, 0 < r.ret) → (reads.map Resp.ret).sum + z.ret = s.total →
      ∃ sizes : List Int, sizes.length = reads.length + 1 ∧
        (∀ k ∈ sizes, 0 ≤ k ∧ k ≤ t.READBUF_SIZE) ∧
        run t cfg s (reads ++ z :: rest)
          = (sizes.map Op.read
              ++ (run t cfg { s with pc := .await_request, total := 0, n := z.ret } rest).1,
             (run t cfg { s with pc := .await_request, total := 0, n := z.ret } rest).2) := by
  have hsize : ∀ x : Int, 0 < x → 0 ≤ readsize t x ∧ readsize t x ≤ t.READBUF_SIZE := by
    intro x hx
    unfold readsize
    split_ifs <;> omega
  induction reads with
  | nil =>
      intro s hpc hhi _ hsum
      simp only [List.map_nil, List.sum_nil, zero_add] at hsum
      refine ⟨[readsize t s.total], rfl, ?_, ?_⟩
      · intro k hk
        rw [List.mem_singleton] at hk
        subst hk
        exact hsize _ (by omega)
      · have h1 : wrapInt z.ret = z.ret := wrapInt_id _ (by omega) (by omega)
        have h0 : wrapInt 0 = 0 := by decide
        have hstep : step t cfg s z
            = .next_call { s with pc := .await_request, total := 0, n := z.ret } := by
          simp [step, hpc, h1, ← hsum, h0]
        rw [List.nil_append, run_cons_continue _ _ _ _ _ _ hstep]
        simp [request, hpc]
  | cons r reads ih =>
      intro s hpc hhi hpos hsum
      have hr : 0 < r.ret := hpos r (List.mem_cons_self _ _)
      have hrest : ∀ x ∈ reads, 0 < x.ret := fun x hx => hpos x (List.mem_cons_of_mem _ hx)
      have hnn : 0 ≤ (reads.map Resp.ret).sum := by
        apply List.sum_nonneg
        intro x hx
        obtain ⟨y, hy, rfl⟩ := List.mem_map.1 hx
        exact le_of_lt (hrest y hy)
      simp only [List.map_cons, List.sum_cons] at hsum
      have h1 : wrapInt r.ret = r.ret := wrapInt_id _ (by omega) (by omega)
      have h2 : wrapInt (s.total - r.ret) = s.total - r.ret := wrapInt_id _ (by omega) (by omega)
      have hstep : step t cfg s r
          = .next_call { s with pc := .recv_flow, total := s.total - r.ret, n := r.ret } := by
        have hgt : 0 < s.total - r.ret := by omega
        simp [step, hpc, h1, h2, hgt, hr]
      obtain ⟨sizes, hlen, hbound, hrun⟩ :=
        ih { s with pc := .recv_flow, total := s.total - r.ret, n := r.ret } rfl
          (by show s.total - r.ret ≤ 2147483647; omega) hrest
          (by show (reads.map Resp.ret).sum + z.ret = s.total - r.ret; omega)
      refine ⟨readsize t s.total :: sizes, by simp [hlen], ?_, ?_⟩
      · intro k hk
        rcases List.mem_cons.1 hk with rfl | hk
        · exact hsize _ (by omega)
        · exact hbound k hk
      · rw [List.cons_append, run_cons_continue _ _ _ _ _ _ hstep, hrun]
        simp [request, hpc]

/-! ## Size fields of `2^31` and more in reverse mode (line 149) -/

theorem request_1_max_size (t : Target) :
    decode_size t (store entry.buf request_1_max.data) = 4294967295 := by
  cases t with
  | mk R be => cases be <;> rfl

/-- C3 at the request `{index = 1, size = 4294967295}` in reverse mode:
`total = f_size` makes `total` equal to -1, one `read` is issued, and whatever
it returns (an error, end of stream, or up to `2^31 - 2` bytes) the flow
counts as complete and the handler goes on to read the next request's
metadata, although the one `read` returned fewer than 4294967295 bytes. -/
theorem reverse_flow_complete_without_bytes (t : Target) (k : Int)
    (hlo : -1 ≤ k) (hhi : k ≤ 2147483646) :
    decode_size t (store entry.buf request_1_max.data) = 4294967295 ∧
    (returns k).ret < 4294967295 ∧
    handle_connection t reverse_cfg [request_1_max, returns 8, returns k]
      = ([.read_exact 8 16 false,
          .write_exact (.buf [1, 0, 0, 0, 255, 255, 255, 255]) 8 MAX_WRITE false,
          .read (-1),
          .read_exact 8 16 false], .blocked) := by
  have hsize := request_1_max_size t
  refine ⟨hsize, by show k < 4294967295; omega, ?_⟩
  have hw : wrapInt 4294967295 = -1 := by decide
  have hk : wrapInt k = k := wrapInt_id _ (by omega) (by omega)
  have hk2 : wrapInt (-1 - k) = -1 - k := wrapInt_id _ (by omega) (by omega)
  have hnot : ¬ (0 < -1 - k) := by omega
  have hstep1 : step t reverse_cfg entry request_1_max
      = .next_call { entry with
          pc := .echo_metadata, buf := store entry.buf request_1_max.data,
          f_index := decode_index t (store entry.buf request_1_max.data),
          f_size := 4294967295 } := by
    rw [← hsize]; rfl
  have hstep2 : step t reverse_cfg { entry with
          pc := .echo_metadata, buf := store entry.buf request_1_max.data,
          f_index := decode_index t (store entry.buf request_1_max.data),
          f_size := 4294967295 } (returns 8)
      = .next_call { entry with
          pc := .recv_flow, buf := store entry.buf request_1_max.data,
          f_index := decode_index t (store entry.buf request_1_max.data),
          f_size := 4294967295, total := -1 } := by
    simp [step, returns, meta_data_size, reverse_cfg, defaults, hw]
  have hstep3 : step t reverse_cfg { entry with
          pc := .recv_flow, buf := store entry.buf request_1_max.data,
          f_index := decode_index t (store entry.buf request_1_max.data),
          f_size := 4294967295, total := -1 } (returns k)
      = .next_call { entry with
          pc := .await_request, buf := store entry.buf request_1_max.data,
          f_index := decode_index t (store entry.buf request_1_max.data),
          f_size := 4294967295, total := -1 - k, n := k } := by
    simp [step, returns, hk, hk2, hnot]
  unfold handle_connection
  rw [run_cons_continue _ _ _ _ _ _ hstep1, run_cons_continue _ _ _ _ _ _ hstep2,
    run_cons_continue _ _ _ _ _ _ hstep3, run_nil]
  have hrs : readsize t (-1) = -1 := by
    unfold readsize
    have : ¬ ((-1 : Int) > (t.READBUF_SIZE : Int)) := by omega
    simp [this]
  simp only [request, hrs, meta_data_size]
  rfl

/-- A `read` that fails returns -1. -/
theorem reverse_flow_complete_without_bytes_witness :
    (-1 : Int) ≤ -1 ∧ (-1 : Int) ≤ 2147483646 ∧
    handle_connection sample_target reverse_cfg [request_1_max, returns 8, returns (-1)]
      = ([.read_exact 8 16 false,
          .write_exact (.buf [1, 0, 0, 0, 255, 255, 255, 255]) 8 MAX_WRITE false,
          .read (-1),
          .read_exact 8 16 false], .blocked) :=
  ⟨by decide, by decide,
   (reverse_flow_complete_without_bytes sample_target (-1) (by decide) (by decide)).2.2⟩

/-- C9 at the request `{index = 1, size = 4294967295}` in reverse mode: the
one `read` of the data phase is issued with `readsize = -1`, which is negative
and, converted to the `size_t` parameter of `read`, is `2^64 - 1`. -/
theorem reverse_flow_negative_readsize (t : Target) :
    read_sizes (handle_connection t reverse_cfg [request_1_max, returns 8]).1 = [-1] ∧
    size_t_of_int (-1) = 18446744073709551615 := by
  have hsize := request_1_max_size t
  have hw : wrapInt 4294967295 = -1 := by decide
  have hstep1 : step t reverse_cfg entry request_1_max
      = .next_call { entry with
          pc := .echo_metadata, buf := store entry.buf request_1_max.data,
          f_index := decode_index t (store entry.buf request_1_max.data),
          f_size := 4294967295 } := by
    rw [← hsize]; rfl
  have hstep2 : step t reverse_cfg { entry with
          pc := .echo_metadata, buf := store entry.buf request_1_max.data,
          f_index := decode_index t (store entry.buf request_1_max.data),
          f_size := 4294967295 } (returns 8)
      = .next_call { entry with
          pc := .recv_flow, buf := store entry.buf request_1_max.data,
          f_index := decode_index t (store entry.buf request_1_max.data),
          f_size := 4294967295, total := -1 } := by
    simp [step, returns, meta_data_size, reverse_cfg, defaults, hw]
  have hrs : readsize t (-1) = -1 := by
    unfold readsize
    have : ¬ ((-1 : Int) > (t.READBUF_SIZE : Int)) := by omega
    simp [this]
  refine ⟨?_, by decide⟩
  unfold handle_connection
  rw [run_cons_continue _ _ _ _ _ _ hstep1, run_cons_continue _ _ _ _ _ _ hstep2, run_nil]
  simp [request, hrs, read_sizes]

/-! ## `read_args` (lines 185-215) -/

/-- The iteration bound `argc` is never reached: `i` grows in every iteration. -/
theorem read_args_loop_fuel (atoi : String → Int) (argv : List String) :
    ∀ (fuel i : Nat) (cfg : Config), argv.length < i + fuel →
      (read_args_loop atoi argv fuel i cfg).2 ≠ .out_of_fuel := by
  intro fuel
  induction fuel with
  | zero =>
      intro i cfg h
      have : ¬ i < argv.length := by omega
      simp [read_args_loop, this]
  | succ fuel ih =>
      intro i cfg h
      have h1 := ih (i + 1)
      have h2 := ih (i + 2)
      simp only [read_args_loop]
      split_ifs
      all_goals first
        | (simp; done)
        | exact h1 _ (by omega)
        | (split
           · simp
           · first
             | exact h2 _ (by omega)
             | (split_ifs
                · exact h2 _ (by omega)
                · simp))

/-- In every case `read_args` comes to an end of its own. -/
theorem read_args_total (atoi : String → Int) (argv : List String) :
    (read_args atoi argv).2 ≠ .out_of_fuel :=
  read_args_loop_fuel atoi argv argv.length 1 defaults (by omega)

theorem ref_scan_cons (atoi : String → Int) (cfg : Config) (a : String) (rest : List String) :
    ref_scan atoi cfg (a :: rest) =
      if a = "-p" then
        match rest with
        | [] => none
        | v :: rest' => ref_scan atoi { cfg with serverPort := atoi v } rest'
      else if a = "-r" then ref_scan atoi { cfg with reverse_dir := 1 } rest
      else if a = "-t" then
        match rest with
        | [] => none
        | v :: rest' => ref_scan atoi { cfg with tcp_congestion_name := v } rest'
      else if a = "-l" then
        match rest with
        | [] => none
        | v :: rest' => ref_scan atoi { cfg with pers_tput_log := v } rest'
      else none := by
  rw [ref_scan.eq_def]

/-- The loop from position `i` computes what the reference scanner computes on
the arguments from `i` on, provided every `-p`, `-t`, `-l` has an argument
after it and every argument fits a `char[NAME_SIZE]`. -/
theorem read_args_loop_refines (atoi : String → Int) (argv : List String)
    (hval : ∀ i, 1 ≤ i → i < argv.length →
      (argv.getD i "" = "-p" ∨ argv.getD i "" = "-t" ∨ argv.getD i "" = "-l") →
      i + 1 < argv.length)
    (hfit : ∀ v ∈ argv, strcpy_fits v = true) :
    ∀ (fuel i : Nat) (cfg : Config), 1 ≤ i → argv.length < i + fuel →
      (read_args_loop atoi argv fuel i cfg).2
        = args_result_of (ref_scan atoi cfg (argv.drop i)) := by
  intro fuel
  induction fuel with
  | zero =>
      intro i cfg _ h
      have hi : ¬ i < argv.length := by omega
      have hd : argv.drop i = [] := List.drop_eq_nil_of_le (by omega)
      simp [read_args_loop, hi, hd, ref_scan, args_result_of]
  | succ fuel ih =>
      intro i cfg h1 h
      by_cases hi : i < argv.length
      · have hd : argv.drop i = argv.getD i "" :: argv.drop (i + 1) := by
          rw [List.drop_eq_getElem_cons hi]
          simp [List.getD, List.getElem?_eq_getElem hi]
        have hnext : i + 1 < argv.length →
            argv.get? (i + 1) = some (argv.getD (i + 1) "") ∧
            argv.drop (i + 1) = argv.getD (i + 1) "" :: argv.drop (i + 2) ∧
            strcpy_fits (argv.getD (i + 1) "") = true := by
          intro hlt
          refine ⟨?_, ?_, ?_⟩
          · simp [List.getD, List.getElem?_eq_getElem hlt]
          · rw [List.drop_eq_getElem_cons hlt]
            simp [List.getD, List.getElem?_eq_getElem hlt]
          · apply hfit
            simp [List.getD, List.getElem?_eq_getElem hlt]
        have ih1 := fun c => ih (i + 1) c (by omega) (by omega)
        have ih2 := fun c => ih (i + 2) c (by omega) (by omega)
        rw [hd, ref_scan_cons]
        simp only [read_args_loop, if_pos hi]
        by_cases hp : argv.getD i "" = "-p"
        · obtain ⟨e1, e2, _⟩ := hnext (hval i h1 hi (Or.inl hp))
          simp only [if_pos hp, e1, e2]
          exact ih2 _
        · by_cases hh : argv.getD i "" = "-h"
          · have hr : ¬ argv.getD i "" = "-r" := by rw [hh]; decide
            have ht : ¬ argv.getD i "" = "-t" := by rw [hh]; decide
            have hl : ¬ argv.getD i "" = "-l" := by rw [hh]; decide
            simp only [if_neg hp, if_pos hh, if_neg hr, if_neg ht, if_neg hl, args_result_of]
          · by_cases hr : argv.getD i "" = "-r"
            · simp only [if_neg hp, if_neg hh, if_pos hr]
              exact ih1 _
            · by_cases ht : argv.getD i "" = "-t"
              · obtain ⟨e1, e2, e3⟩ := hnext (hval i h1 hi (Or.inr (Or.inl ht)))
                simp only [if_neg hp, if_neg hh, if_neg hr, if_pos ht, e1, e2, e3, if_true]
                exact ih2 _
              · by_cases hl : argv.getD i "" = "-l"
                · obtain ⟨e1, e2, e3⟩ := hnext (hval i h1 hi (Or.inr (Or.inr hl)))
                  simp only [if_neg hp, if_neg hh, if_neg hr, if_neg ht, if_pos hl, e1, e2, e3,
                    if_true]
                  exact ih2 _
                · simp only [if_neg hp, if_neg hh, if_neg hr, if_neg ht, if_neg hl,
                    args_result_of]
      · have hd : argv.drop i = [] := List.drop_eq_nil_of_le (by omega)
        simp [read_args_loop, hi, hd, ref_scan, args_result_of]

/-- When every `-p`, `-t`, `-l` among the arguments has an argument after it
and every argument (terminator included) fits in `NAME_SIZE` bytes,
`read_args` ends as the reference scanner run from the defaults over
`argv[1..]`: it leaves with a failure status exactly when the scanner does,
and otherwise returns with the globals the scanner computes. -/
theorem read_args_refines_ref_scan (atoi : String → Int) (argv : List String)
    (hval : ∀ i, 1 ≤ i → i < argv.length →
      (argv.getD i "" = "-p" ∨ argv.getD i "" = "-t" ∨ argv.getD i "" = "-l") →
      i + 1 < argv.length)
    (hfit : ∀ v ∈ argv, strcpy_fits v = true) :
    (read_args atoi argv).2 = args_result_of (ref_scan atoi defaults (argv.drop 1)) :=
  read_args_loop_refines atoi argv hval hfit argv.length 1 defaults (le_refl 1) (by omega)

/-- Without arguments `read_args` returns the defaults and reads nothing. -/
theorem read_args_no_arguments (atoi : String → Int) :
    read_args atoi ["server"] = ([], .returned defaults) := rfl

/-- C8 at `server -t aaa...a` with a name of 80 bytes: `strcpy` (line 204)
copies 81 bytes into the 80 bytes of `tcp_congestion_name`, so the call does
not end with only the algorithm name set. -/
theorem read_args_long_name_overflows (atoi : String → Int) :
    String.utf8ByteSize (String.mk (List.replicate 80 'a')) = 80 ∧
    read_args atoi ["server", "-t", String.mk (List.replicate 80 'a')]
      = ([1, 2], .buffer_overflow) :=
  ⟨by decide, rfl⟩

/-- C10 at `server -p` (`argc = 2`): the loop reads `argv[1]` and then
`argv[2]`, which is `argv[argc]`, the null pointer, and hands it to `atoi`
(line 195). -/
theorem read_args_reads_argv_argc (atoi : String → Int) :
    ["server", "-p"].length = 2 ∧
    read_args atoi ["server", "-p"] = ([1, 2], .null_argument) :=
  ⟨rfl, rfl⟩

/-- The command line `server -p 80 -r -t cubic`. -/
theorem read_args_refines_ref_scan_witness :
    (read_args (fun _ => 80) ["server", "-p", "80", "-r", "-t", "cubic"]).2
      = .returned { serverPort := 80, reverse_dir := 1, tcp_congestion_name := "cubic",
                    pers_tput_log := "server.log" } ∧
    (read_args (fun _ => 80) ["server", "-p", "80", "-r", "-t", "cubic"]).2
      = args_result_of (ref_scan (fun _ => 80) defaults
          (["server", "-p", "80", "-r", "-t", "cubic"].drop 1)) :=
  ⟨by decide,
   read_args_refines_ref_scan (fun _ => 80) ["server", "-p", "80", "-r", "-t", "cubic"]
     (by
       intro i _ hi _
       have : i < 6 := hi
       interval_cases i <;> first | decide | (exfalso; revert ‹_ ∨ _›; decide))
     (by decide)⟩

end TrafficGen
